import Mathlib

/-!
Verification of the tabliblib per-record filtering pipeline
(`src/tabliblib/dataframe_utils.py`) against its natural-language
specification.

The file shallowly embeds `write_dataframe_to_file` and
`DataFrameFileDataSink._write_element`.  The collaborators imported from
`tabliblib.config`, `tabliblib.filters` and `tabliblib.io` (whose sources are
not part of the repository snapshot) are modelled from the specification, as
noted in their doc comments.  External nondeterminism or opaque collaborators
(UUID generation, the code/PII predicates, path normalisation, serializer
failures) are passed in explicitly through an `Oracles` record, and filesystem
side effects are reified as an `Effect` trace in the result.
-/

namespace Tabliblib

/-- A cell value of a table.  `str` is a text value; `missing` is a null-like
missing entry; `nonCastable` stands for a value whose conversion to text
raises (the case handled by the try/except in the substring filter). -/
inductive Value where
  | str (s : String)
  | missing
  | nonCastable
deriving DecidableEq

/-- Conversion of a cell to text, as used by the row filters.  Returns `none`
for a value that cannot be treated as text (conversion raises). -/
def pyStr : Value → Option String
  | Value.str s => some s
  | Value.missing => none
  | Value.nonCastable => none

/-- Modelled from the spec (glossary): a null-like value is a missing value or
the empty string.  (User-defined sentinel values are not part of the
configuration surface in section 6 and are not modelled.) -/
def nullLike : Value → Bool
  | Value.str s => s = ""
  | Value.missing => true
  | Value.nonCastable => false

/-- Does the character list `hay` begin with `needle`? -/
def charsBeginWith : List Char → List Char → Bool
  | [], _ => true
  | _ :: _, [] => false
  | a :: as, b :: bs => (a == b) && charsBeginWith as bs

/-- Helper for substring containment over character lists. -/
def strContainsAux (needle : List Char) : List Char → Bool
  | [] => needle.isEmpty
  | c :: cs => charsBeginWith needle (c :: cs) || strContainsAux needle cs

/-- Substring containment: does `s` contain `sub`?  Embeds the Python
expression `sub in s`. -/
def strContains (s sub : String) : Bool :=
  strContainsAux sub.toList s.toList

/-- Header entry of one table column: its name, and whether the column is
string-typed (row predicates only consult string-typed columns). -/
structure ColHeader where
  name : String
  isString : Bool
deriving DecidableEq

/-- An in-memory table: a header and a list of rows.  A row is the list of
cell values aligned with the header.  A table may have zero columns and still
retain its rows, mirroring the dataframe index semantics. -/
structure Table where
  header : List ColHeader
  rows : List (List Value)
deriving DecidableEq

/-- Number of rows of a table (`len(df)`). -/
def Table.nrows (t : Table) : Nat := t.rows.length

/-- Keep-first deduplication with an accumulator of already-seen elements. -/
def dedupFirstAux {α : Type} [DecidableEq α] (seen : List α) : List α → List α
  | [] => []
  | x :: xs =>
      if x ∈ seen then dedupFirstAux seen xs
      else x :: dedupFirstAux (x :: seen) xs

/-- Modelled from the spec (4.4): duplicate removal that keeps the first
occurrence of each row, embedding `DataFrame.drop_duplicates`. -/
def dedupFirst {α : Type} [DecidableEq α] (l : List α) : List α :=
  dedupFirstAux [] l

/-- Embeds `df.drop_duplicates()`: removes rows that are exact duplicates
across all columns, keeping the first occurrence. -/
def drop_duplicates (t : Table) : Table :=
  { header := t.header, rows := dedupFirst t.rows }

/-- Cells of column `j`, read off the rows. -/
def colCells (t : Table) (j : Nat) : List Value :=
  t.rows.map (fun r => (r.get? j).getD Value.missing)

/-- Embeds `tabliblib.config.PreprocessConfig`, restricted to the fields the
pipeline consults (spec section 6).  `max_value_len_chars` and `min_rows` are
optional; `max_null_like_frac` is a rational fraction. -/
structure PreprocessConfig where
  drop_invalid_cols : Bool
  max_header_len_chars : Nat
  min_unique_column_values : Nat
  max_null_like_frac : ℚ
  drop_extra_cols : Bool
  max_cols : Nat
  max_value_len_chars : Option Nat
  filter_rows_containing_substrings : List String
  filter_rows_containing_code : Bool
  filter_rows_containing_pii : Bool
  drop_duplicate_rows : Bool
  min_rows : Option Nat
  drop_extra_rows : Bool
  max_output_rows : Nat

/-- Python truthiness of an optional integer: `None` and `0` are falsy.
Embeds the guard `if config.max_value_len_chars:`. -/
def truthyNat : Option Nat → Bool
  | none => false
  | some n => n != 0

/-- Python truthiness of the substring list: enabled iff non-empty.  Embeds
the guard `if config.filter_rows_containing_substrings:`. -/
def substringsEnabled (cfg : PreprocessConfig) : Bool :=
  !cfg.filter_rows_containing_substrings.isEmpty

/-- Opaque external collaborators and sources of nondeterminism, passed in
explicitly: the code/PII classifiers (spec treats them as opaque predicates on
a value), the freshly generated unique token (`uuid.uuid1()`), path
normalisation (`os.path.abspath`), and possible serializer failures
(`to_csv`/`to_parquet` raising, e.g. `ArrowNotImplementedError`). -/
structure Oracles where
  contains_code : Value → Bool
  contains_pii : Value → Bool
  uuid : String
  abspath : String → String
  serialize_error : String → Table → Option String

/-- A record flowing through the sink: its `content_hash`, an optional
in-memory table (`df` key present or absent), the decoded content of its
`arrow_bytes` (`none` models bytes that fail to decode), and the remaining
passthrough fields. -/
structure Record where
  content_hash : String
  df : Option Table
  arrow_bytes : Option Table
  passthrough : List (String × String)
deriving DecidableEq

/-- A reified filesystem side effect of the writer. -/
inductive Effect where
  | makedirs (dir : String)
  | fileWrite (path : String) (format : String) (index : Bool)
deriving DecidableEq

/-- Result of a successful (non-raising) run of `write_dataframe_to_file`:
the returned record, the table that was serialized (`none` when the record
was passed through unwritten), and the trace of filesystem effects. -/
structure WriteResult where
  ret : Record
  written : Option Table
  effects : List Effect
deriving DecidableEq

/-- A log event carrying the content hash it was correlated with. -/
structure LogEvent where
  content_hash : String
  message : String
deriving DecidableEq

/-- Modelled from the spec: `tabliblib.io.read_arrow_bytes`.  Decodes encoded
table bytes; with `raise_on_error = true` (the only mode the pipeline uses) a
decode failure raises, modelled as `Except.error`. -/
def read_arrow_bytes (b : Option Table) (raise_on_error : Bool) : Except String Table :=
  match b with
  | some t => Except.ok t
  | none =>
      if raise_on_error then Except.error "failed to decode arrow bytes"
      else Except.ok { header := [], rows := [] }

/-- Does a row trigger the filter predicate?  A row triggers when some cell,
paired with its header entry (restricted to string-typed columns when
`stringOnly` is set), satisfies `fn`. -/
def rowTriggers (hdr : List ColHeader) (fn : Value → Bool) (stringOnly : Bool)
    (r : List Value) : Bool :=
  (hdr.zip r).any (fun p => (!stringOnly || p.1.isString) && fn p.2)

/-- Modelled from the spec (4.3): `tabliblib.filters.apply_row_based_filter`.
Drops the rows in which some string-typed value satisfies `filter_fn` (for
`string_columns_only = false`, any value), keeping the rest in order. -/
def apply_row_based_filter (t : Table) (filter_fn : Value → Bool)
    (string_columns_only : Bool) : Table :=
  { header := t.header,
    rows := t.rows.filter (fun r => !rowTriggers t.header filter_fn string_columns_only r) }

/-- Is column `j` of `t` valid?  Modelled from the spec (4.1): header length
at most `max_header_len_chars`, at least `min_unique_column_values` distinct
non-null-like values, and a null-like fraction of at most
`max_null_like_frac` (stated as `count ≤ frac * nrows` to avoid division). -/
def columnIsValid (cfg : PreprocessConfig) (t : Table) (j : Nat) : Bool :=
  match t.header.get? j with
  | none => false
  | some h =>
      decide (h.name.length ≤ cfg.max_header_len_chars)
      && decide (cfg.min_unique_column_values ≤
           (dedupFirst ((colCells t j).filter (fun v => !nullLike v))).length)
      && decide ((((colCells t j).filter nullLike).length : ℚ) ≤
           cfg.max_null_like_frac * (t.nrows : ℚ))

/-- Indices of the columns that pass all three validity criteria, in order. -/
def validColIdxs (cfg : PreprocessConfig) (t : Table) : List Nat :=
  (List.range t.header.length).filter (columnIsValid cfg t)

/-- Modelled from the spec (4.1): `tabliblib.filters.fetch_names_of_valid_columns`,
the names of the valid columns in order. -/
def fetch_names_of_valid_columns (cfg : PreprocessConfig) (t : Table) : List String :=
  (validColIdxs cfg t).filterMap (fun j => (t.header.get? j).map (fun h => h.name))

/-- Embeds `df = df[valid_colnames]`: restricts the table to its valid
columns (selection done positionally; the source selects by name, which
coincides since column names are the header entries in order). -/
def dropInvalidCols (cfg : PreprocessConfig) (t : Table) : Table :=
  let idxs := validColIdxs cfg t
  { header := idxs.filterMap (fun j => t.header.get? j),
    rows := t.rows.map (fun r => idxs.map (fun j => (r.get? j).getD Value.missing)) }

/-- Modelled from the spec (4.2): `tabliblib.io.sample_columns_if_needed`.
If the table has more than `maxCols` columns, keeps a subset of exactly
`maxCols` columns chosen without replacement (the spec allows an arbitrary
subset; the leading columns represent the choice); otherwise unchanged. -/
def sample_columns_if_needed (t : Table) (maxCols : Nat) : Table :=
  if maxCols < t.header.length then
    { header := t.header.take maxCols, rows := t.rows.map (fun r => r.take maxCols) }
  else t

/-- Modelled from the spec (4.4): `df.sample(n=n, replace=False)`.  Selects
`n` rows without replacement (the spec allows an arbitrary selection; the
leading rows represent the choice). -/
def sampleRows (t : Table) (n : Nat) : Table :=
  { header := t.header, rows := t.rows.take n }

/-- The pipeline stages of `write_dataframe_to_file`, in source order. -/
inductive Stage where
  | colValidation
  | colReduction
  | valueLen
  | substrRows
  | codeRows
  | piiRows
  | dedupRows
  | minRowCheck
  | rowReduce
deriving DecidableEq

/-- One row-filter stage: its identity, whether its configuration guard is
truthy, and the predicate handed to `apply_row_based_filter`. -/
structure RowStageSpec where
  stage : Stage
  enabled : Bool
  fn : Value → Bool

/-- The predicate of the max-value-length stage: embeds
`lambda x: len(str(x)) > config.max_value_len_chars`, restricted to values
that are text (spec 4.3 stage 1 speaks only of string values). -/
def valueLenFn (maxLen : Nat) (v : Value) : Bool :=
  match pyStr v with
  | some s => decide (maxLen < s.length)
  | none => false

/-- The predicate of the forbidden-substring stage: embeds
`_contains_substring_filter_fn`, whose try/except returns `False` for a value
that cannot be cast to text. -/
def substrFilterFn (subs : List String) (v : Value) : Bool :=
  match pyStr v with
  | some s => subs.any (fun sub => strContains s sub)
  | none => false

/-- Stage descriptor for the max-value-length filter (source lines 52-58). -/
def valueLenSpec (cfg : PreprocessConfig) : RowStageSpec :=
  { stage := Stage.valueLen,
    enabled := truthyNat cfg.max_value_len_chars,
    fn := valueLenFn (cfg.max_value_len_chars.getD 0) }

/-- Stage descriptor for the forbidden-substring filter (source lines 60-71). -/
def substrSpec (cfg : PreprocessConfig) : RowStageSpec :=
  { stage := Stage.substrRows,
    enabled := substringsEnabled cfg,
    fn := substrFilterFn cfg.filter_rows_containing_substrings }

/-- Stage descriptor for the code-content filter (source lines 73-77). -/
def codeSpec (o : Oracles) (cfg : PreprocessConfig) : RowStageSpec :=
  { stage := Stage.codeRows,
    enabled := cfg.filter_rows_containing_code,
    fn := o.contains_code }

/-- Stage descriptor for the PII filter (source lines 79-83). -/
def piiSpec (o : Oracles) (cfg : PreprocessConfig) : RowStageSpec :=
  { stage := Stage.piiRows,
    enabled := cfg.filter_rows_containing_pii,
    fn := o.contains_pii }

/-- The four row-filter stages in the fixed source order. -/
def rowStageSpecs (o : Oracles) (cfg : PreprocessConfig) : List RowStageSpec :=
  [valueLenSpec cfg, substrSpec cfg, codeSpec o cfg, piiSpec o cfg]

/-- The two column phases of the pipeline (source lines 42-50): column
validation when `drop_invalid_cols` is set, then column reduction when
`drop_extra_cols` is set. -/
def colPhase (cfg : PreprocessConfig) (df0 : Table) : Table :=
  let d1 := if cfg.drop_invalid_cols then dropInvalidCols cfg df0 else df0
  if cfg.drop_extra_cols then sample_columns_if_needed d1 cfg.max_cols else d1

/-- The chain of row-filter stages (source lines 52-83).  Each enabled stage
filters and then aborts with `none` when the table has become empty; a
disabled stage is skipped entirely. -/
def rowPhase : List RowStageSpec → Table → Option Table
  | [], df => some df
  | s :: rest, df =>
      if s.enabled then
        let d := apply_row_based_filter df s.fn true
        if d.nrows = 0 then none else rowPhase rest d
      else rowPhase rest df

/-- Deduplication phase (source lines 85-86). -/
def dedupPhase (cfg : PreprocessConfig) (df : Table) : Table :=
  if cfg.drop_duplicate_rows then drop_duplicates df else df

/-- The table just before the min-row check: column phases, row-filter chain
and deduplication; `none` when some row stage emptied the table. -/
def preMinRows (o : Oracles) (cfg : PreprocessConfig) (df0 : Table) : Option Table :=
  (rowPhase (rowStageSpecs o cfg) (colPhase cfg df0)).map (dedupPhase cfg)

/-- The min-row rejection test (source lines 88-90):
`config.min_rows is not None and len(df) < config.min_rows`. -/
def minRowsReject (cfg : PreprocessConfig) (df : Table) : Bool :=
  match cfg.min_rows with
  | some m => decide (df.nrows < m)
  | none => false

/-- Body of the row-reduction stage (source lines 92-95), once
`drop_extra_rows` is known to be set: sample down when the row count exceeds
`max_output_rows`, rejecting when the sample came out empty. -/
def rowReduceInner (cfg : PreprocessConfig) (df : Table) : Option Table :=
  if cfg.max_output_rows < df.nrows then
    let d := sampleRows df cfg.max_output_rows
    if d.nrows = 0 then none else some d
  else some df

/-- Row-reduction phase (source lines 92-95). -/
def rowReducePhase (cfg : PreprocessConfig) (df : Table) : Option Table :=
  if cfg.drop_extra_rows then rowReduceInner cfg df else some df

/-- The full filtering pipeline of `write_dataframe_to_file` on an in-memory
table (source lines 42-95): `some` the final table ready for writing, or
`none` when the record is rejected (early exit, min-row check, or empty
sample). -/
def processTable (o : Oracles) (cfg : PreprocessConfig) (df0 : Table) : Option Table :=
  match preMinRows o cfg df0 with
  | none => none
  | some df => if minRowsReject cfg df then none else rowReducePhase cfg df

/-- The decode step (source lines 32-37): use the in-memory table when the
`df` key is present, otherwise decode `arrow_bytes` with errors raised. -/
def getInputTable (row : Record) : Except String Table :=
  match row.df with
  | some d => Except.ok d
  | none => read_arrow_bytes row.arrow_bytes true

/-- Embeds `write_dataframe_to_file` (source lines 16-106).  `Except.error`
models an exception escaping the remote function (decode failure or a
serializer failure); `Except.ok` carries the returned record, the table that
was written (if any) and the filesystem effect trace. -/
def write_dataframe_to_file (o : Oracles) (row : Record) (root_dir : String)
    (output_format : String) (config : PreprocessConfig) : Except String WriteResult :=
  match getInputTable row with
  | Except.error e => Except.error e
  | Except.ok df =>
      match processTable o config df with
      | none => Except.ok { ret := row, written := none, effects := [Effect.makedirs root_dir] }
      | some dff =>
          if output_format = "csv" ∨ output_format = "parquet" then
            match o.serialize_error output_format dff with
            | some e => Except.error e
            | none =>
                Except.ok
                  { ret := row,
                    written := some dff,
                    effects :=
                      [Effect.makedirs root_dir,
                       Effect.fileWrite
                         (o.abspath root_dir ++ "/" ++
                           (row.content_hash ++ "__" ++ o.uuid ++ "." ++ output_format))
                         output_format false] }
          else Except.ok { ret := row, written := none, effects := [Effect.makedirs root_dir] }

/-- Embeds `DataFrameFileDataSink._write_element` (source lines 127-155): run
the per-record task and await it; any exception raised there is caught, a
warning carrying the record content hash and the error is logged, and the
original element is returned. -/
def write_element (o : Oracles) (base_path : String) (output_format : String)
    (config : PreprocessConfig) (element : Record) : Record × List LogEvent :=
  match write_dataframe_to_file o element base_path output_format config with
  | Except.ok res => (res.ret, [])
  | Except.error e =>
      (element, [{ content_hash := element.content_hash, message := e }])

/-- Whether the configuration guard of a stage is truthy, read off the
source guards at lines 42, 49, 52, 60, 73, 79, 85, 88 and 92. -/
def stageEnabled (cfg : PreprocessConfig) : Stage → Bool
  | Stage.colValidation => cfg.drop_invalid_cols
  | Stage.colReduction => cfg.drop_extra_cols
  | Stage.valueLen => truthyNat cfg.max_value_len_chars
  | Stage.substrRows => substringsEnabled cfg
  | Stage.codeRows => cfg.filter_rows_containing_code
  | Stage.piiRows => cfg.filter_rows_containing_pii
  | Stage.dedupRows => cfg.drop_duplicate_rows
  | Stage.minRowCheck => cfg.min_rows.isSome
  | Stage.rowReduce => cfg.drop_extra_rows

/-- The fixed source order of the pipeline stages. -/
def fixedOrder : List Stage :=
  [Stage.colValidation, Stage.colReduction, Stage.valueLen, Stage.substrRows,
   Stage.codeRows, Stage.piiRows, Stage.dedupRows, Stage.minRowCheck, Stage.rowReduce]

/-- The stages whose guards are truthy, in the fixed source order. -/
def enabledStages (cfg : PreprocessConfig) : List Stage :=
  fixedOrder.filter (stageEnabled cfg)

/-- Stages of a row-stage list whose guards are truthy, in order. -/
def enabledOf (specs : List RowStageSpec) : List Stage :=
  (specs.filter (fun s => s.enabled)).map (fun s => s.stage)

/-- Column phases instrumented with the trace of the stages executed. -/
def colPhaseTraced (cfg : PreprocessConfig) (df0 : Table) : Table × List Stage :=
  let p := if cfg.drop_invalid_cols then (dropInvalidCols cfg df0, [Stage.colValidation])
           else (df0, ([] : List Stage))
  if cfg.drop_extra_cols then (sample_columns_if_needed p.1 cfg.max_cols, p.2 ++ [Stage.colReduction])
  else p

/-- Row-filter chain instrumented with the trace of the stages executed. -/
def rowPhaseTraced : List RowStageSpec → Table → Option Table × List Stage
  | [], df => (some df, [])
  | s :: rest, df =>
      if s.enabled then
        let d := apply_row_based_filter df s.fn true
        if d.nrows = 0 then (none, [s.stage])
        else
          let q := rowPhaseTraced rest d
          (q.1, s.stage :: q.2)
      else rowPhaseTraced rest df

/-- Row-reduction phase instrumented with the trace of the stages executed. -/
def rowReduceTraced (cfg : PreprocessConfig) (df : Table) : Option Table × List Stage :=
  if cfg.drop_extra_rows then (rowReduceInner cfg df, [Stage.rowReduce])
  else (some df, [])

/-- Deduplication, min-row check and row reduction instrumented with the
trace of the stages executed. -/
def tailPhaseTraced (cfg : PreprocessConfig) (df : Table) : Option Table × List Stage :=
  let d := dedupPhase cfg df
  let trD : List Stage := if cfg.drop_duplicate_rows then [Stage.dedupRows] else []
  match cfg.min_rows with
  | some m =>
      if d.nrows < m then (none, trD ++ [Stage.minRowCheck])
      else
        let q := rowReduceTraced cfg d
        (q.1, trD ++ [Stage.minRowCheck] ++ q.2)
  | none =>
      let q := rowReduceTraced cfg d
      (q.1, trD ++ q.2)

/-- The full filtering pipeline instrumented with the trace of the stages
executed, in execution order. -/
def processTableTraced (o : Oracles) (cfg : PreprocessConfig) (df0 : Table) :
    Option Table × List Stage :=
  let c := colPhaseTraced cfg df0
  match rowPhaseTraced (rowStageSpecs o cfg) c.1 with
  | (none, trR) => (none, c.2 ++ trR)
  | (some d3, trR) =>
      let t := tailPhaseTraced cfg d3
      (t.1, c.2 ++ trR ++ t.2)

/-! ### Lemmas about keep-first deduplication -/

theorem dedupFirstAux_sublist {α : Type} [DecidableEq α] :
    ∀ (l seen : List α), List.Sublist (dedupFirstAux seen l) l
  | [], _ => List.Sublist.refl []
  | x :: xs, seen => by
      unfold dedupFirstAux
      by_cases h : x ∈ seen
      · simpa [h] using (dedupFirstAux_sublist xs seen).cons x
      · simpa [h] using (dedupFirstAux_sublist xs (x :: seen)).cons₂ x

theorem mem_dedupFirstAux {α : Type} [DecidableEq α] :
    ∀ (l seen : List α) (a : α), a ∈ dedupFirstAux seen l ↔ a ∈ l ∧ a ∉ seen
  | [], seen, a => by simp [dedupFirstAux]
  | x :: xs, seen, a => by
      unfold dedupFirstAux
      by_cases h : x ∈ seen
      · rw [if_pos h, mem_dedupFirstAux xs seen a]
        constructor
        · rintro ⟨h1, h2⟩
          exact ⟨List.mem_cons_of_mem x h1, h2⟩
        · rintro ⟨h1, h2⟩
          rcases List.mem_cons.1 h1 with rfl | h1
          · exact absurd h h2
          · exact ⟨h1, h2⟩
      · rw [if_neg h]
        by_cases hax : a = x
        · subst hax
          simp [h]
        · constructor
          · intro ha
            rcases List.mem_cons.1 ha with rfl | ha
            · exact absurd rfl hax
            · have := (mem_dedupFirstAux xs (x :: seen) a).1 ha
              refine ⟨List.mem_cons_of_mem x this.1, fun hs => this.2 (List.mem_cons_of_mem x hs)⟩
          · rintro ⟨h1, h2⟩
            rcases List.mem_cons.1 h1 with rfl | h1
            · exact absurd rfl hax
            · refine List.mem_cons_of_mem x ?_
              exact (mem_dedupFirstAux xs (x :: seen) a).2
                ⟨h1, fun hs => (List.mem_cons.1 hs).elim hax h2⟩

theorem nodup_dedupFirstAux {α : Type} [DecidableEq α] :
    ∀ (l seen : List α), (dedupFirstAux seen l).Nodup
  | [], _ => List.nodup_nil
  | x :: xs, seen => by
      unfold dedupFirstAux
      by_cases h : x ∈ seen
      · simpa [h] using nodup_dedupFirstAux xs seen
      · rw [if_neg h]
        refine List.Nodup.cons ?_ (nodup_dedupFirstAux xs (x :: seen))
        intro hx
        exact ((mem_dedupFirstAux xs (x :: seen) x).1 hx).2 (List.mem_cons_self x seen)

theorem dedupFirstAux_eq_self {α : Type} [DecidableEq α] :
    ∀ (l seen : List α), (∀ a ∈ l, a ∉ seen) → l.Nodup → dedupFirstAux seen l = l
  | [], _, _, _ => rfl
  | x :: xs, seen, hd, hn => by
      have hx : x ∉ seen := hd x (List.mem_cons_self x xs)
      unfold dedupFirstAux
      rw [if_neg hx]
      congr 1
      refine dedupFirstAux_eq_self xs (x :: seen) ?_ (List.Nodup.of_cons hn)
      intro a ha hs
      rcases List.mem_cons.1 hs with rfl | hs
      · exact (List.nodup_cons.1 hn).1 ha
      · exact hd a (List.mem_cons_of_mem x ha) hs

theorem dedupFirst_sublist {α : Type} [DecidableEq α] (l : List α) :
    List.Sublist (dedupFirst l) l :=
  dedupFirstAux_sublist l []

theorem dedupFirst_nodup {α : Type} [DecidableEq α] (l : List α) :
    (dedupFirst l).Nodup :=
  nodup_dedupFirstAux l []

theorem dedupFirst_eq_self {α : Type} [DecidableEq α] (l : List α) (h : l.Nodup) :
    dedupFirst l = l :=
  dedupFirstAux_eq_self l [] (fun a _ ha => (List.not_mem_nil a) ha) h

theorem dedupFirst_ne_nil {α : Type} [DecidableEq α] (x : α) (xs : List α) :
    dedupFirst (x :: xs) ≠ [] := by
  simp [dedupFirst, dedupFirstAux]

/-! ### Lemmas about the row filter and the phases -/

theorem apply_row_based_filter_header (t : Table) (fn : Value → Bool) (so : Bool) :
    (apply_row_based_filter t fn so).header = t.header := rfl

theorem apply_row_based_filter_sublist (t : Table) (fn : Value → Bool) (so : Bool) :
    List.Sublist (apply_row_based_filter t fn so).rows t.rows :=
  List.filter_sublist t.rows

theorem drop_duplicates_header (t : Table) : (drop_duplicates t).header = t.header := rfl

theorem drop_duplicates_sublist (t : Table) :
    List.Sublist (drop_duplicates t).rows t.rows :=
  dedupFirst_sublist t.rows

theorem dedupPhase_header (cfg : PreprocessConfig) (t : Table) :
    (dedupPhase cfg t).header = t.header := by
  unfold dedupPhase
  by_cases h : cfg.drop_duplicate_rows <;> simp [h, drop_duplicates_header]

theorem dedupPhase_sublist (cfg : PreprocessConfig) (t : Table) :
    List.Sublist (dedupPhase cfg t).rows t.rows := by
  unfold dedupPhase
  by_cases h : cfg.drop_duplicate_rows <;> simp [h, drop_duplicates_sublist]

theorem rowPhase_some_inv :
    ∀ (specs : List RowStageSpec) (df d : Table),
      rowPhase specs df = some d → d.header = df.header ∧ List.Sublist d.rows df.rows
  | [], df, d, h => by
      simp only [rowPhase, Option.some.injEq] at h
      subst h
      exact ⟨rfl, List.Sublist.refl _⟩
  | s :: rest, df, d, h => by
      unfold rowPhase at h
      by_cases he : s.enabled
      · rw [if_pos he] at h
        by_cases h0 : (apply_row_based_filter df s.fn true).nrows = 0
        · simp [h0] at h
        · rw [if_neg h0] at h
          have ih := rowPhase_some_inv rest (apply_row_based_filter df s.fn true) d h
          exact ⟨ih.1.trans (apply_row_based_filter_header df s.fn true),
                 ih.2.trans (apply_row_based_filter_sublist df s.fn true)⟩
      · rw [if_neg he] at h
        exact rowPhase_some_inv rest df d h

theorem rowPhase_all_disabled :
    ∀ (specs : List RowStageSpec) (u : Table),
      (∀ s ∈ specs, s.enabled = false) → rowPhase specs u = some u
  | [], _, _ => rfl
  | s :: rest, u, h => by
      unfold rowPhase
      rw [if_neg (by simp [h s (List.mem_cons_self s rest)])]
      exact rowPhase_all_disabled rest u (fun s' hs' => h s' (List.mem_cons_of_mem s hs'))

theorem rowPhase_nonempty :
    ∀ (specs : List RowStageSpec) (df d : Table),
      rowPhase specs df = some d → (∃ s ∈ specs, s.enabled = true) → d.rows ≠ []
  | [], _, _, _, hex => by simp at hex
  | s :: rest, df, d, h, hex => by
      unfold rowPhase at h
      by_cases he : s.enabled
      · rw [if_pos he] at h
        by_cases h0 : (apply_row_based_filter df s.fn true).nrows = 0
        · simp [h0] at h
        · rw [if_neg h0] at h
          by_cases hrest : ∃ s' ∈ rest, s'.enabled = true
          · exact rowPhase_nonempty rest _ d h hrest
          · push_neg at hrest
            have hall : ∀ s' ∈ rest, s'.enabled = false := by
              intro s' hs'
              cases hse : s'.enabled
              · rfl
              · exact absurd hse (hrest s' hs')
            rw [rowPhase_all_disabled rest _ hall] at h
            have hd : d = apply_row_based_filter df s.fn true := (Option.some.injEq .. ▸ h).symm
            subst hd
            intro hnil
            exact h0 (by simp [Table.nrows, hnil])
      · rw [if_neg he] at h
        rcases hex with ⟨s', hs', he'⟩
        rcases List.mem_cons.1 hs' with rfl | hs'
        · exact absurd he' (by simpa using he)
        · exact rowPhase_nonempty rest df d h ⟨s', hs', he'⟩

theorem rowPhase_keep_all :
    ∀ (specs : List RowStageSpec) (df d u : Table),
      rowPhase specs df = some d →
      u.header = df.header → List.Sublist u.rows d.rows → u.rows ≠ [] →
      rowPhase specs u = some u
  | [], _, _, _, _, _, _, _ => rfl
  | s :: rest, df, d, u, h, hhdr, hsub, hne => by
      unfold rowPhase at h ⊢
      by_cases he : s.enabled
      · rw [if_pos he] at h ⊢
        by_cases h0 : (apply_row_based_filter df s.fn true).nrows = 0
        · simp [h0] at h
        · rw [if_neg h0] at h
          have hinv := rowPhase_some_inv rest (apply_row_based_filter df s.fn true) d h
          have hrows : u.rows.filter
              (fun r => !rowTriggers u.header s.fn true r) = u.rows := by
            refine List.filter_eq_self.mpr ?_
            intro r hr
            rw [hhdr]
            have hr2 : r ∈ (apply_row_based_filter df s.fn true).rows :=
              hinv.2.subset (hsub.subset hr)
            exact (List.mem_filter.1 hr2).2
          have hu : apply_row_based_filter u s.fn true = u := by
            unfold apply_row_based_filter
            rw [hrows]
          rw [hu]
          rw [if_neg (by simpa [Table.nrows, List.length_eq_zero] using hne)]
          exact rowPhase_keep_all rest (apply_row_based_filter df s.fn true) d u h
            (hhdr.trans (apply_row_based_filter_header df s.fn true).symm) hsub hne
      · rw [if_neg he] at h ⊢
        exact rowPhase_keep_all rest df d u h hhdr hsub hne

theorem rowPhase_cons (s : RowStageSpec) (rest : List RowStageSpec) (df : Table) :
    rowPhase (s :: rest) df =
      if s.enabled then
        (if (apply_row_based_filter df s.fn true).nrows = 0 then none
         else rowPhase rest (apply_row_based_filter df s.fn true))
      else rowPhase rest df := rfl

theorem rowPhase_append :
    ∀ (pre post : List RowStageSpec) (df : Table),
      rowPhase (pre ++ post) df =
        match rowPhase pre df with
        | none => none
        | some d => rowPhase post d
  | [], post, df => rfl
  | s :: pre, post, df => by
      rw [List.cons_append, rowPhase_cons, rowPhase_cons]
      by_cases he : s.enabled
      · rw [if_pos he, if_pos he]
        by_cases h0 : (apply_row_based_filter df s.fn true).nrows = 0
        · rw [if_pos h0, if_pos h0]
        · rw [if_neg h0, if_neg h0]
          exact rowPhase_append pre post _
      · rw [if_neg he, if_neg he]
        exact rowPhase_append pre post df

/-! ### Lemmas about the instrumented pipeline -/

theorem colPhaseTraced_fst (cfg : PreprocessConfig) (df0 : Table) :
    (colPhaseTraced cfg df0).1 = colPhase cfg df0 := by
  unfold colPhaseTraced colPhase
  by_cases h1 : cfg.drop_invalid_cols <;> by_cases h2 : cfg.drop_extra_cols <;>
    simp [h1, h2]

theorem colPhaseTraced_snd (cfg : PreprocessConfig) (df0 : Table) :
    (colPhaseTraced cfg df0).2 =
      [Stage.colValidation, Stage.colReduction].filter (stageEnabled cfg) := by
  unfold colPhaseTraced
  by_cases h1 : cfg.drop_invalid_cols <;> by_cases h2 : cfg.drop_extra_cols <;>
    simp [h1, h2, stageEnabled, List.filter_cons]

theorem rowPhaseTraced_cons (s : RowStageSpec) (rest : List RowStageSpec) (df : Table) :
    rowPhaseTraced (s :: rest) df =
      if s.enabled then
        (if (apply_row_based_filter df s.fn true).nrows = 0 then (none, [s.stage])
         else ((rowPhaseTraced rest (apply_row_based_filter df s.fn true)).1,
               s.stage :: (rowPhaseTraced rest (apply_row_based_filter df s.fn true)).2))
      else rowPhaseTraced rest df := rfl

theorem rowPhaseTraced_fst :
    ∀ (specs : List RowStageSpec) (df : Table),
      (rowPhaseTraced specs df).1 = rowPhase specs df
  | [], _ => rfl
  | s :: rest, df => by
      rw [rowPhaseTraced_cons, rowPhase_cons]
      by_cases he : s.enabled
      · rw [if_pos he, if_pos he]
        by_cases h0 : (apply_row_based_filter df s.fn true).nrows = 0
        · rw [if_pos h0, if_pos h0]
        · rw [if_neg h0, if_neg h0]
          exact rowPhaseTraced_fst rest _
      · rw [if_neg he, if_neg he]
        exact rowPhaseTraced_fst rest df

theorem enabledOf_cons (s : RowStageSpec) (rest : List RowStageSpec) :
    enabledOf (s :: rest) =
      if s.enabled then s.stage :: enabledOf rest else enabledOf rest := by
  by_cases h : s.enabled <;> simp [enabledOf, List.filter_cons, h]

theorem rowPhaseTraced_leads :
    ∀ (specs : List RowStageSpec) (df : Table),
      ∃ rest, (rowPhaseTraced specs df).2 ++ rest = enabledOf specs ∧
        ((rowPhaseTraced specs df).1.isSome = true → rest = [])
  | [], df => ⟨[], by simp [rowPhaseTraced, enabledOf]⟩
  | s :: specs, df => by
      rw [rowPhaseTraced_cons, enabledOf_cons]
      by_cases he : s.enabled
      · rw [if_pos he, if_pos he]
        by_cases h0 : (apply_row_based_filter df s.fn true).nrows = 0
        · rw [if_pos h0]
          exact ⟨enabledOf specs, by simp⟩
        · rw [if_neg h0]
          obtain ⟨rest, hr1, hr2⟩ :=
            rowPhaseTraced_leads specs (apply_row_based_filter df s.fn true)
          exact ⟨rest, by simpa using hr1, hr2⟩
      · rw [if_neg he, if_neg he]
        exact rowPhaseTraced_leads specs df

theorem rowReduceTraced_fst (cfg : PreprocessConfig) (df : Table) :
    (rowReduceTraced cfg df).1 = rowReducePhase cfg df := by
  unfold rowReduceTraced rowReducePhase
  by_cases h : cfg.drop_extra_rows <;> simp [h]

theorem tailPhaseTraced_fst (cfg : PreprocessConfig) (df : Table) :
    (tailPhaseTraced cfg df).1 =
      (if minRowsReject cfg (dedupPhase cfg df) then none
       else rowReducePhase cfg (dedupPhase cfg df)) := by
  unfold tailPhaseTraced minRowsReject
  cases hm : cfg.min_rows with
  | none => simp [rowReduceTraced_fst]
  | some m =>
      by_cases hlt : (dedupPhase cfg df).nrows < m
      · simp [hlt]
      · simp [hlt, rowReduceTraced_fst]

theorem tailPhaseTraced_leads (cfg : PreprocessConfig) (df : Table) :
    ∃ rest, (tailPhaseTraced cfg df).2 ++ rest =
        [Stage.dedupRows, Stage.minRowCheck, Stage.rowReduce].filter (stageEnabled cfg) ∧
      ((tailPhaseTraced cfg df).1.isSome = true → rest = []) := by
  unfold tailPhaseTraced rowReduceTraced
  cases hm : cfg.min_rows with
  | none =>
      refine ⟨[], ?_, fun _ => rfl⟩
      by_cases hd : cfg.drop_duplicate_rows <;> by_cases hr : cfg.drop_extra_rows <;>
        simp [hd, hr, stageEnabled, hm, List.filter_cons]
  | some m =>
      by_cases hlt : (dedupPhase cfg df).nrows < m
      · by_cases hr : cfg.drop_extra_rows
        · refine ⟨[Stage.rowReduce], ?_, ?_⟩
          · by_cases hd : cfg.drop_duplicate_rows <;>
              simp [hd, hr, hlt, stageEnabled, hm, List.filter_cons]
          · intro hsome
            simp [hlt] at hsome
        · refine ⟨[], ?_, fun _ => rfl⟩
          by_cases hd : cfg.drop_duplicate_rows <;>
            simp [hd, hr, hlt, stageEnabled, hm, List.filter_cons]
      · refine ⟨[], ?_, fun _ => rfl⟩
        by_cases hd : cfg.drop_duplicate_rows <;> by_cases hr : cfg.drop_extra_rows <;>
          simp [hd, hr, hlt, stageEnabled, hm, List.filter_cons]

theorem processTableTraced_fst (o : Oracles) (cfg : PreprocessConfig) (df0 : Table) :
    (processTableTraced o cfg df0).1 = processTable o cfg df0 := by
  unfold processTableTraced processTable preMinRows
  rcases hq : rowPhaseTraced (rowStageSpecs o cfg) (colPhaseTraced cfg df0).1 with ⟨r1, trR⟩
  have hr : rowPhase (rowStageSpecs o cfg) (colPhase cfg df0) = r1 := by
    rw [← colPhaseTraced_fst, ← rowPhaseTraced_fst, hq]
  cases r1 with
  | none => simp [hq, hr]
  | some d3 =>
      simp only [hq, hr, Option.map_some]
      exact tailPhaseTraced_fst cfg d3

theorem enabledOf_rowStageSpecs (o : Oracles) (cfg : PreprocessConfig) :
    enabledOf (rowStageSpecs o cfg) =
      [Stage.valueLen, Stage.substrRows, Stage.codeRows, Stage.piiRows].filter
        (stageEnabled cfg) := by
  by_cases h1 : truthyNat cfg.max_value_len_chars <;>
  by_cases h2 : substringsEnabled cfg <;>
  by_cases h3 : cfg.filter_rows_containing_code <;>
  by_cases h4 : cfg.filter_rows_containing_pii <;>
    simp [enabledOf, rowStageSpecs, valueLenSpec, substrSpec, codeSpec, piiSpec,
      stageEnabled, List.filter_cons, h1, h2, h3, h4]

theorem enabledStages_decompose (cfg : PreprocessConfig) :
    enabledStages cfg =
      [Stage.colValidation, Stage.colReduction].filter (stageEnabled cfg) ++
      [Stage.valueLen, Stage.substrRows, Stage.codeRows, Stage.piiRows].filter
        (stageEnabled cfg) ++
      [Stage.dedupRows, Stage.minRowCheck, Stage.rowReduce].filter (stageEnabled cfg) := by
  rw [enabledStages,
    show fixedOrder =
      [Stage.colValidation, Stage.colReduction] ++
      [Stage.valueLen, Stage.substrRows, Stage.codeRows, Stage.piiRows] ++
      [Stage.dedupRows, Stage.minRowCheck, Stage.rowReduce] from rfl,
    List.filter_append, List.filter_append]

theorem processTableTraced_trace (o : Oracles) (cfg : PreprocessConfig) (df0 : Table) :
    ∃ rest, (processTableTraced o cfg df0).2 ++ rest = enabledStages cfg ∧
      ((processTableTraced o cfg df0).1.isSome = true → rest = []) := by
  have hcol := colPhaseTraced_snd cfg df0
  obtain ⟨restR, hR1, hR2⟩ :=
    rowPhaseTraced_leads (rowStageSpecs o cfg) (colPhaseTraced cfg df0).1
  rw [enabledOf_rowStageSpecs] at hR1
  rcases hq : rowPhaseTraced (rowStageSpecs o cfg) (colPhaseTraced cfg df0).1 with ⟨r1, trR⟩
  rw [hq] at hR1 hR2
  simp only at hR1 hR2
  cases r1 with
  | none =>
      refine ⟨restR ++ [Stage.dedupRows, Stage.minRowCheck, Stage.rowReduce].filter
        (stageEnabled cfg), ?_, ?_⟩
      · show (processTableTraced o cfg df0).2 ++ _ = _
        simp only [processTableTraced, hq]
        simp only [enabledStages_decompose, hcol, List.append_assoc]
        rw [← List.append_assoc trR restR, hR1]
      · intro hsome
        simp only [processTableTraced, hq] at hsome
        simp at hsome
  | some d3 =>
      have hrr : restR = [] := hR2 rfl
      subst hrr
      rw [List.append_nil] at hR1
      obtain ⟨restT, hT1, hT2⟩ := tailPhaseTraced_leads cfg d3
      refine ⟨restT, ?_, ?_⟩
      · show (processTableTraced o cfg df0).2 ++ _ = _
        simp only [processTableTraced, hq]
        simp only [enabledStages_decompose, hcol, hR1, List.append_assoc, hT1]
      · intro hsome
        simp only [processTableTraced, hq] at hsome
        exact hT2 hsome

/-! ### Reduction helper for the writer -/

theorem write_ok_of_reject (o : Oracles) (row : Record) (root fmt : String)
    (cfg : PreprocessConfig) (df0 : Table)
    (hdf : getInputTable row = Except.ok df0)
    (hproc : processTable o cfg df0 = none) :
    write_dataframe_to_file o row root fmt cfg =
      Except.ok { ret := row, written := none, effects := [Effect.makedirs root] } := by
  simp only [write_dataframe_to_file, hdf, hproc]

/-! ### Concrete fixtures used in witnesses and counterexamples -/

/-- A concrete oracle bundle: classifiers that match nothing, fixed unique
token, identity path normalisation, serializers that never fail. -/
def oW : Oracles :=
  { contains_code := fun _ => false,
    contains_pii := fun _ => false,
    uuid := "u1",
    abspath := fun s => s,
    serialize_error := fun _ _ => none }

/-- A configuration with every stage disabled. -/
def cfgOff : PreprocessConfig :=
  { drop_invalid_cols := false, max_header_len_chars := 100,
    min_unique_column_values := 0, max_null_like_frac := 1,
    drop_extra_cols := false, max_cols := 10, max_value_len_chars := none,
    filter_rows_containing_substrings := [], filter_rows_containing_code := false,
    filter_rows_containing_pii := false, drop_duplicate_rows := false,
    min_rows := none, drop_extra_rows := false, max_output_rows := 10 }

/-- A two-row, one-column string table. -/
def tW : Table :=
  { header := [{ name := "a", isString := true }],
    rows := [[Value.str "x"], [Value.str "y"]] }

/-- A record with no in-memory table and corrupt arrow bytes. -/
def rFail : Record :=
  { content_hash := "h1", df := none, arrow_bytes := none, passthrough := [] }

/-- A well-formed record carrying `tW` in memory. -/
def rOk : Record :=
  { content_hash := "h2", df := some tW, arrow_bytes := none, passthrough := [] }

/-! ### Claim theorems -/

/-- C10: on every non-raising path of `write_dataframe_to_file` — successful
write, filtered-to-empty early exit, min-row rejection, zero-row-sample
rejection, and unknown output format — the returned record is the input
record itself, with no field added, removed or modified. -/
theorem write_returns_input_record (o : Oracles) (row : Record) (root fmt : String)
    (cfg : PreprocessConfig) (res : WriteResult)
    (hok : write_dataframe_to_file o row root fmt cfg = Except.ok res) :
    res.ret = row := by
  unfold write_dataframe_to_file at hok
  cases hg : getInputTable row with
  | error e => exact absurd (hg ▸ hok) (by simp)
  | ok df =>
      simp only [hg] at hok
      cases hp : processTable o cfg df with
      | none =>
          simp only [hp, Except.ok.injEq] at hok
          rw [← hok]
      | some dff =>
          simp only [hp] at hok
          by_cases hf : fmt = "csv" ∨ fmt = "parquet"
          · rw [if_pos hf] at hok
            cases hs : o.serialize_error fmt dff with
            | some e => exact absurd (hs ▸ hok) (by simp)
            | none =>
                simp only [hs, Except.ok.injEq] at hok
                rw [← hok]
          · rw [if_neg hf] at hok
            simp only [Except.ok.injEq] at hok
            rw [← hok]

/-- Witness for C10: a record that survives the pipeline untouched still
comes back as the original record. -/
theorem write_returns_input_record_witness :
    ∃ res, write_dataframe_to_file oW rOk "out" "csv" cfgOff = Except.ok res ∧
      res.ret = rOk := by
  refine ⟨{ ret := rOk, written := some tW,
            effects := [Effect.makedirs "out",
              Effect.fileWrite "out/h2__u1.csv" "csv" false] }, rfl, ?_⟩
  exact write_returns_input_record oW rOk "out" "csv" cfgOff _ rfl

/-- C1: any exception raised while processing a record inside the remote
task — decode, filtering, or write — is caught at the
`_write_element` dispatch boundary, logged together with the record's
content hash, and converted into a result returning the original unmodified
record; the per-element call is total and never re-raises. -/
theorem dispatcher_contains_record_failures (o : Oracles) (base fmt : String)
    (cfg : PreprocessConfig) (element : Record) (e : String)
    (herr : write_dataframe_to_file o element base fmt cfg = Except.error e) :
    write_element o base fmt cfg element =
      (element, [{ content_hash := element.content_hash, message := e }]) := by
  unfold write_element
  rw [herr]

/-- Witness for C1 at a record whose arrow bytes fail to decode: the raised
error is contained and the original record is returned with a log entry
naming its content hash. -/
theorem dispatcher_contains_record_failures_witness :
    write_dataframe_to_file oW rFail "out" "csv" cfgOff =
        Except.error "failed to decode arrow bytes" ∧
      write_element oW "out" "csv" cfgOff rFail =
        (rFail, [{ content_hash := "h1", message := "failed to decode arrow bytes" }]) :=
  ⟨rfl, dispatcher_contains_record_failures oW "out" "csv" cfgOff rFail
    "failed to decode arrow bytes" rfl⟩

/-- C2 counterexample: for a record with no in-memory table and corrupt
arrow bytes, the decode error raised inside `write_dataframe_to_file` is
caught at the `_write_element` dispatch boundary and converted into a
pass-through result returning the original record — it does not reach the
batch caller, contradicting the claim as stated. -/
theorem decode_error_caught_at_dispatch_cex :
    write_dataframe_to_file oW rFail "out" "parquet" cfgOff =
        Except.error "failed to decode arrow bytes" ∧
      write_element oW "out" "parquet" cfgOff rFail =
        (rFail, [{ content_hash := "h1", message := "failed to decode arrow bytes" }]) ∧
      (write_element oW "out" "parquet" cfgOff rFail).1 = rFail :=
  ⟨rfl, rfl, rfl⟩

/-- C2 amended: a decode failure for a record with no in-memory table is not
handled inside the per-record processing function — unlike filterable
conditions, `write_dataframe_to_file` raises instead of returning a
pass-through result, and the error propagates out of the processing function
(it is then caught only at the dispatch boundary, like any other failure). -/
theorem decode_failure_raises (o : Oracles) (row : Record) (root fmt : String)
    (cfg : PreprocessConfig) (hdf : row.df = none) (hbytes : row.arrow_bytes = none) :
    write_dataframe_to_file o row root fmt cfg =
      Except.error "failed to decode arrow bytes" := by
  simp [write_dataframe_to_file, getInputTable, read_arrow_bytes, hdf, hbytes]

/-- Witness for the amended C2 at a concrete corrupt record. -/
theorem decode_failure_raises_witness :
    rFail.df = none ∧ rFail.arrow_bytes = none ∧
      write_dataframe_to_file oW rFail "base" "csv" cfgOff =
        Except.error "failed to decode arrow bytes" :=
  ⟨rfl, rfl, decode_failure_raises oW rFail "base" "csv" cfgOff rfl rfl⟩

/-- C9: for a record that survives the pipeline, the writer ensures the
destination directory exists, writes exactly one file whose name is the
record's content hash, a double underscore, the unique token and the format
extension, serializes without an index column, and returns the original
record rather than a path or handle. -/
theorem output_writer_contract (o : Oracles) (row : Record) (root fmt : String)
    (cfg : PreprocessConfig) (df0 dff : Table)
    (hdf : getInputTable row = Except.ok df0)
    (hproc : processTable o cfg df0 = some dff)
    (hfmt : fmt = "csv" ∨ fmt = "parquet")
    (hser : o.serialize_error fmt dff = none) :
    write_dataframe_to_file o row root fmt cfg =
      Except.ok
        { ret := row,
          written := some dff,
          effects :=
            [Effect.makedirs root,
             Effect.fileWrite
               (o.abspath root ++ "/" ++ (row.content_hash ++ "__" ++ o.uuid ++ "." ++ fmt))
               fmt false] } := by
  simp only [write_dataframe_to_file, hdf, hproc, if_pos hfmt, hser]

/-- Witness for C9: the surviving record `rOk` is written once to
`out/h2__u1.csv` and returned unchanged. -/
theorem output_writer_contract_witness :
    write_dataframe_to_file oW rOk "out" "csv" cfgOff =
      Except.ok
        { ret := rOk,
          written := some tW,
          effects :=
            [Effect.makedirs "out",
             Effect.fileWrite "out/h2__u1.csv" "csv" false] } := by
  have h := output_writer_contract oW rOk "out" "csv" cfgOff tW tW rfl rfl
    (Or.inl rfl) rfl
  simpa using h

/-- C5: with a minimum row-count threshold configured, a table whose row
count after all filtering and deduplication is strictly below it causes the
original unmodified record to be returned with no file written. -/
theorem min_rows_rejection (o : Oracles) (row : Record) (root fmt : String)
    (cfg : PreprocessConfig) (df0 d : Table) (m : Nat)
    (hdf : getInputTable row = Except.ok df0)
    (hpre : preMinRows o cfg df0 = some d)
    (hm : cfg.min_rows = some m)
    (hlt : d.nrows < m) :
    write_dataframe_to_file o row root fmt cfg =
      Except.ok { ret := row, written := none, effects := [Effect.makedirs root] } := by
  apply write_ok_of_reject o row root fmt cfg df0 hdf
  have hrej : minRowsReject cfg d = true := by
    simp [minRowsReject, hm, hlt]
  simp [processTable, hpre, hrej]

/-- Witness configuration for the min-row check: threshold three, everything
else off. -/
def cfgMin : PreprocessConfig :=
  { cfgOff with min_rows := some 3 }

/-- Witness for C5: two rows remain but three are required, so `rOk` is
passed through unwritten. -/
theorem min_rows_rejection_witness :
    tW.nrows < 3 ∧
      write_dataframe_to_file oW rOk "out" "csv" cfgMin =
        Except.ok { ret := rOk, written := none, effects := [Effect.makedirs "out"] } :=
  ⟨by decide, min_rows_rejection oW rOk "out" "csv" cfgMin tW tW 3 rfl rfl rfl (by decide)⟩

/-- C7: with row reduction enabled, a table whose row count exceeds the
configured maximum is downsampled without replacement to exactly that
maximum; the sample is empty exactly when the maximum is zero, in which case
the record is rejected and the original record returned unchanged; a table
at or below the maximum is left unsampled. -/
theorem row_reduction_spec (o : Oracles) (row : Record) (root fmt : String)
    (cfg : PreprocessConfig) (df0 df : Table)
    (hdf : getInputTable row = Except.ok df0)
    (hpre : preMinRows o cfg df0 = some df)
    (hmin : minRowsReject cfg df = false)
    (hen : cfg.drop_extra_rows = true) :
    (cfg.max_output_rows < df.nrows →
      (sampleRows df cfg.max_output_rows).nrows = cfg.max_output_rows ∧
      List.Sublist (sampleRows df cfg.max_output_rows).rows df.rows ∧
      ((sampleRows df cfg.max_output_rows).nrows = 0 ↔ cfg.max_output_rows = 0) ∧
      (cfg.max_output_rows = 0 →
        write_dataframe_to_file o row root fmt cfg =
          Except.ok { ret := row, written := none, effects := [Effect.makedirs root] }) ∧
      (0 < cfg.max_output_rows →
        processTable o cfg df0 = some (sampleRows df cfg.max_output_rows))) ∧
    (df.nrows ≤ cfg.max_output_rows → processTable o cfg df0 = some df) := by
  constructor
  · intro hgt
    have hlen : (sampleRows df cfg.max_output_rows).nrows = cfg.max_output_rows := by
      simp [sampleRows, Table.nrows, List.length_take]
      exact Nat.le_of_lt hgt
    refine ⟨hlen, List.take_sublist _ _, by rw [hlen], ?_, ?_⟩
    · intro h0
      apply write_ok_of_reject o row root fmt cfg df0 hdf
      have hinner : rowReduceInner cfg df = none := by
        unfold rowReduceInner
        rw [if_pos hgt, if_pos (by rw [hlen, h0])]
      simp [processTable, hpre, hmin, rowReducePhase, hen, hinner]
    · intro hpos
      have hinner : rowReduceInner cfg df = some (sampleRows df cfg.max_output_rows) := by
        unfold rowReduceInner
        rw [if_pos hgt, if_neg (by rw [hlen]; exact Nat.pos_iff_ne_zero.1 hpos)]
      simp [processTable, hpre, hmin, rowReducePhase, hen, hinner]
  · intro hle
    have hinner : rowReduceInner cfg df = some df := by
      unfold rowReduceInner
      rw [if_neg (Nat.not_lt.2 hle)]
    simp [processTable, hpre, hmin, rowReducePhase, hen, hinner]

/-- Witness configuration for row reduction: cap of one output row,
everything else off. -/
def cfgCap : PreprocessConfig :=
  { cfgOff with drop_extra_rows := true, max_output_rows := 1 }

/-- Witness for C7: two rows against a cap of one are downsampled to exactly
one row. -/
theorem row_reduction_spec_witness :
    1 < tW.nrows ∧
      processTable oW cfgCap tW = some (sampleRows tW 1) ∧
      (sampleRows tW 1).nrows = 1 := by
  have h := row_reduction_spec oW rOk "out" "csv" cfgCap tW tW rfl rfl rfl rfl
  exact ⟨by decide, (h.1 (by decide)).2.2.2.2 (by decide), (h.1 (by decide)).1⟩

theorem rowPhaseTraced_append_some :
    ∀ (pre post : List RowStageSpec) (df d : Table),
      (rowPhaseTraced pre df).1 = some d →
      rowPhaseTraced (pre ++ post) df =
        ((rowPhaseTraced post d).1,
         (rowPhaseTraced pre df).2 ++ (rowPhaseTraced post d).2)
  | [], post, df, d, h => by
      simp only [rowPhaseTraced, Option.some.injEq] at h
      subst h
      simp [rowPhaseTraced]
  | s :: pre, post, df, d, h => by
      rw [rowPhaseTraced_cons] at h
      rw [List.cons_append, rowPhaseTraced_cons, rowPhaseTraced_cons]
      by_cases he : s.enabled
      · rw [if_pos he] at h
        rw [if_pos he, if_pos he]
        by_cases h0 : (apply_row_based_filter df s.fn true).nrows = 0
        · rw [if_pos h0] at h
          simp at h
        · rw [if_neg h0] at h
          rw [if_neg h0, if_neg h0]
          simp only at h
          rw [rowPhaseTraced_append_some pre post _ d h]
          simp
      · rw [if_neg he] at h
        rw [if_neg he, if_neg he]
        exact rowPhaseTraced_append_some pre post df d h

/-- C3: if an enabled row-filter stage (value-length, substring, code or
PII) leaves the table with zero rows, processing aborts immediately: the
original unprocessed record is returned, no file is written, and the
execution trace stops at that stage, so no later stage is applied. -/
theorem row_filter_early_exit (o : Oracles) (row : Record) (root fmt : String)
    (cfg : PreprocessConfig) (df0 d : Table)
    (pre post : List RowStageSpec) (s : RowStageSpec)
    (hdf : getInputTable row = Except.ok df0)
    (hsplit : rowStageSpecs o cfg = pre ++ s :: post)
    (hen : s.enabled = true)
    (hpre : rowPhase pre (colPhase cfg df0) = some d)
    (hempty : (apply_row_based_filter d s.fn true).nrows = 0) :
    write_dataframe_to_file o row root fmt cfg =
      Except.ok { ret := row, written := none, effects := [Effect.makedirs root] } ∧
    (processTableTraced o cfg df0).2 =
      (colPhaseTraced cfg df0).2 ++ (rowPhaseTraced pre (colPhase cfg df0)).2 ++ [s.stage] := by
  have hstage : rowPhase (s :: post) d = none := by
    rw [rowPhase_cons, if_pos hen, if_pos hempty]
  have hrow : rowPhase (rowStageSpecs o cfg) (colPhase cfg df0) = none := by
    rw [hsplit, rowPhase_append]
    simp only [hpre]
    exact hstage
  constructor
  · apply write_ok_of_reject o row root fmt cfg df0 hdf
    simp [processTable, preMinRows, hrow]
  · have hpreT : (rowPhaseTraced pre (colPhase cfg df0)).1 = some d := by
      rw [rowPhaseTraced_fst]
      exact hpre
    have hstageT : rowPhaseTraced (s :: post) d = (none, [s.stage]) := by
      rw [rowPhaseTraced_cons, if_pos hen, if_pos hempty]
    have hfull : rowPhaseTraced (rowStageSpecs o cfg) (colPhase cfg df0) =
        (none, (rowPhaseTraced pre (colPhase cfg df0)).2 ++ [s.stage]) := by
      rw [hsplit, rowPhaseTraced_append_some pre (s :: post) _ d hpreT, hstageT]
    simp only [processTableTraced, colPhaseTraced_fst, hfull, List.append_assoc]

/-- Witness configuration for the substring filter: forbids the substring
"x", everything else off. -/
def cfgSub : PreprocessConfig :=
  { cfgOff with filter_rows_containing_substrings := ["x"] }

/-- A one-row table whose single string value contains the forbidden
substring. -/
def tEmp : Table :=
  { header := [{ name := "a", isString := true }], rows := [[Value.str "ax"]] }

/-- A record carrying `tEmp` in memory. -/
def rEmp : Record :=
  { content_hash := "h3", df := some tEmp, arrow_bytes := none, passthrough := [] }

/-- Witness for C3: the substring stage empties `tEmp`, so `rEmp` is passed
through unwritten and the trace stops at the substring stage. -/
theorem row_filter_early_exit_witness :
    (substrSpec cfgSub).enabled = true ∧
    (apply_row_based_filter tEmp (substrSpec cfgSub).fn true).nrows = 0 ∧
    write_dataframe_to_file oW rEmp "out" "csv" cfgSub =
      Except.ok { ret := rEmp, written := none, effects := [Effect.makedirs "out"] } ∧
    (processTableTraced oW cfgSub tEmp).2 = [Stage.substrRows] := by
  have h := row_filter_early_exit oW rEmp "out" "csv" cfgSub tEmp tEmp
    [valueLenSpec cfgSub] [codeSpec oW cfgSub, piiSpec oW cfgSub] (substrSpec cfgSub)
    rfl rfl rfl rfl (by decide)
  exact ⟨rfl, by decide, h.1, h.2.trans (by decide)⟩

/-- C4: the pipeline stages run in the fixed order column validation →
column reduction → value-length → substring → code → PII → deduplication →
min-row check → row reduction, each gated by its configuration flag: the
execution trace is always a prefix of the enabled stages in that order (a
disabled stage never runs), and on a non-rejected run the trace is exactly
the enabled stages. -/
theorem pipeline_stage_order_and_gating (o : Oracles) (cfg : PreprocessConfig)
    (df0 : Table) :
    (processTableTraced o cfg df0).1 = processTable o cfg df0 ∧
    (∃ rest, (processTableTraced o cfg df0).2 ++ rest = enabledStages cfg) ∧
    ((processTable o cfg df0).isSome = true →
      (processTableTraced o cfg df0).2 = enabledStages cfg) := by
  obtain ⟨rest, h1, h2⟩ := processTableTraced_trace o cfg df0
  refine ⟨processTableTraced_fst o cfg df0, ⟨rest, h1⟩, ?_⟩
  intro hsome
  rw [← processTableTraced_fst o cfg df0] at hsome
  rw [h2 hsome] at h1
  simpa using h1

/-- Witness configuration for the stage ordering: deduplication and a
min-row threshold of one enabled, everything else off. -/
def cfgOrd : PreprocessConfig :=
  { cfgOff with drop_duplicate_rows := true, min_rows := some 1 }

/-- Witness for C4 at a concrete run: only the enabled stages appear, in the
fixed order, and the non-rejected run traces exactly them. -/
theorem pipeline_stage_order_and_gating_witness :
    enabledStages cfgOrd = [Stage.dedupRows, Stage.minRowCheck] ∧
    (processTable oW cfgOrd tW).isSome = true ∧
    (processTableTraced oW cfgOrd tW).2 = enabledStages cfgOrd := by
  refine ⟨by decide, by decide, ?_⟩
  exact (pipeline_stage_order_and_gating oW cfgOrd tW).2.2 (by decide)

/-- C6: every row surviving the substring-filter stage contains none of the
forbidden substrings in any of its string-typed text values, and a value
that cannot be cast to text never causes its row to be dropped: a dropped
row always exhibits a text value that contains a forbidden substring. -/
theorem substring_filter_sound (t : Table) (subs : List String)
    (hsubs : subs ≠ []) :
    (∀ r ∈ (apply_row_based_filter t (substrFilterFn subs) true).rows,
       ∀ p ∈ t.header.zip r, p.1.isString = true →
         ∀ s, pyStr p.2 = some s → ∀ sub ∈ subs, strContains s sub = false) ∧
    (∀ r ∈ t.rows, r ∉ (apply_row_based_filter t (substrFilterFn subs) true).rows →
       ∃ p ∈ t.header.zip r, p.1.isString = true ∧
         ∃ s, pyStr p.2 = some s ∧ ∃ sub ∈ subs, strContains s sub = true) := by
  constructor
  · intro r hr p hp hstr s hps sub hsub
    have h1 := (List.mem_filter.1 hr).2
    have h2 : rowTriggers t.header (substrFilterFn subs) true r = false := by
      simpa using h1
    by_contra hc
    have hc2 : strContains s sub = true := by
      cases hcs : strContains s sub
      · exact absurd hcs hc
      · rfl
    have h3 : rowTriggers t.header (substrFilterFn subs) true r = true := by
      unfold rowTriggers
      rw [List.any_eq_true]
      refine ⟨p, hp, ?_⟩
      simp only [Bool.not_true, Bool.false_or, hstr, Bool.true_and]
      unfold substrFilterFn
      rw [hps, List.any_eq_true]
      exact ⟨sub, hsub, hc2⟩
    rw [h3] at h2
    exact Bool.noConfusion h2
  · intro r hrt hr
    have htrig : rowTriggers t.header (substrFilterFn subs) true r = true := by
      by_contra hne
      have hfalse : rowTriggers t.header (substrFilterFn subs) true r = false := by
        cases hcs : rowTriggers t.header (substrFilterFn subs) true r
        · rfl
        · exact absurd hcs hne
      exact hr (List.mem_filter.2 ⟨hrt, by simp [hfalse]⟩)
    unfold rowTriggers at htrig
    rw [List.any_eq_true] at htrig
    obtain ⟨p, hp, hcond⟩ := htrig
    simp only [Bool.not_true, Bool.false_or, Bool.and_eq_true] at hcond
    obtain ⟨hstr, hfn⟩ := hcond
    unfold substrFilterFn at hfn
    cases hps : pyStr p.2 with
    | none => rw [hps] at hfn; exact absurd hfn (by simp)
    | some s =>
        rw [hps, List.any_eq_true] at hfn
        obtain ⟨sub, hsub, hcontains⟩ := hfn
        exact ⟨p, hp, hstr, s, hps, sub, hsub, hcontains⟩

/-- A table holding one row with a forbidden substring and one row whose
value cannot be cast to text. -/
def tMix : Table :=
  { header := [{ name := "a", isString := true }],
    rows := [[Value.str "ax"], [Value.nonCastable]] }

/-- Witness for C6: filtering `tMix` against the forbidden substring "x"
drops the matching row but keeps the non-castable one. -/
theorem substring_filter_sound_witness :
    (["x"] : List String) ≠ [] ∧
    (apply_row_based_filter tMix (substrFilterFn ["x"]) true).rows =
      [[Value.nonCastable]] ∧
    (∀ r ∈ (apply_row_based_filter tMix (substrFilterFn ["x"]) true).rows,
       ∀ p ∈ tMix.header.zip r, p.1.isString = true →
         ∀ s, pyStr p.2 = some s → ∀ sub ∈ (["x"] : List String),
           strContains s sub = false) :=
  ⟨by decide, by decide, (substring_filter_sound tMix ["x"] (by decide)).1⟩

/-! ### Lemmas for the idempotence analysis -/

theorem sample_columns_header_le (u : Table) (m : Nat) :
    (sample_columns_if_needed u m).header.length ≤ m ∨
      sample_columns_if_needed u m = u := by
  unfold sample_columns_if_needed
  by_cases h : m < u.header.length
  · left
    rw [if_pos h]
    simp [List.length_take]
  · right
    rw [if_neg h]

theorem sample_columns_id (u : Table) (m : Nat) (h : u.header.length ≤ m) :
    sample_columns_if_needed u m = u := by
  unfold sample_columns_if_needed
  rw [if_neg (Nat.not_lt.2 h)]

theorem colPhase_header_le (cfg : PreprocessConfig) (df0 : Table)
    (hx : cfg.drop_extra_cols = true) :
    (colPhase cfg df0).header.length ≤ cfg.max_cols := by
  unfold colPhase
  rw [hx]
  simp only [if_true]
  rcases sample_columns_header_le
    (if cfg.drop_invalid_cols then dropInvalidCols cfg df0 else df0) cfg.max_cols with h | h
  · exact h
  · rw [h]
    have := sample_columns_id _ _ (le_of_eq (congrArg (fun u => u.header.length) h).symm)
    by_contra hgt
    push_neg at hgt
    have hne : sample_columns_if_needed
        (if cfg.drop_invalid_cols then dropInvalidCols cfg df0 else df0) cfg.max_cols ≠
        (if cfg.drop_invalid_cols then dropInvalidCols cfg df0 else df0) := by
      unfold sample_columns_if_needed
      rw [if_pos hgt]
      intro heq
      have := congrArg (fun u => u.header.length) heq
      simp only [List.length_take] at this
      omega
    exact hne h

theorem colPhase_id (cfg : PreprocessConfig) (u : Table)
    (hcv : cfg.drop_invalid_cols = false)
    (hlen : cfg.drop_extra_cols = true → u.header.length ≤ cfg.max_cols) :
    colPhase cfg u = u := by
  unfold colPhase
  rw [hcv]
  simp only [Bool.false_eq_true, if_false]
  by_cases hx : cfg.drop_extra_cols
  · rw [if_pos hx]
    exact sample_columns_id u cfg.max_cols (hlen hx)
  · rw [if_neg hx]

theorem dedupPhase_ne_nil (cfg : PreprocessConfig) (u : Table) (h : u.rows ≠ []) :
    (dedupPhase cfg u).rows ≠ [] := by
  unfold dedupPhase
  by_cases hd : cfg.drop_duplicate_rows
  · rw [if_pos hd]
    show dedupFirst u.rows ≠ []
    cases hu : u.rows with
    | nil => exact absurd hu h
    | cons x xs => exact dedupFirst_ne_nil x xs
  · rw [if_neg hd]
    exact h

theorem dedupPhase_nodup (cfg : PreprocessConfig) (u : Table)
    (hd : cfg.drop_duplicate_rows = true) :
    (dedupPhase cfg u).rows.Nodup := by
  unfold dedupPhase
  rw [hd]
  simp only [if_true]
  exact dedupFirst_nodup u.rows

theorem dedupPhase_id (cfg : PreprocessConfig) (u : Table) (h : u.rows.Nodup) :
    dedupPhase cfg u = u := by
  unfold dedupPhase
  by_cases hd : cfg.drop_duplicate_rows
  · rw [if_pos hd]
    unfold drop_duplicates
    rw [dedupFirst_eq_self u.rows h]
  · rw [if_neg hd]

theorem preMinRows_some_inv (o : Oracles) (cfg : PreprocessConfig) (df0 dD : Table)
    (h : preMinRows o cfg df0 = some dD) :
    ∃ dR, rowPhase (rowStageSpecs o cfg) (colPhase cfg df0) = some dR ∧
      dD = dedupPhase cfg dR := by
  unfold preMinRows at h
  cases hr : rowPhase (rowStageSpecs o cfg) (colPhase cfg df0) with
  | none => rw [hr] at h; exact absurd h (by simp)
  | some dR =>
      rw [hr] at h
      have h2 : dedupPhase cfg dR = dD := by simpa using h
      exact ⟨dR, rfl, h2.symm⟩

theorem rowReducePhase_cases (cfg : PreprocessConfig) (d t : Table)
    (h : rowReducePhase cfg d = some t) :
    (t = d ∧ (cfg.drop_extra_rows = false ∨ ¬ cfg.max_output_rows < d.nrows)) ∨
    (cfg.drop_extra_rows = true ∧ cfg.max_output_rows < d.nrows ∧
      t = sampleRows d cfg.max_output_rows ∧ t.nrows = cfg.max_output_rows ∧
      t.nrows ≠ 0) := by
  unfold rowReducePhase at h
  by_cases hx : cfg.drop_extra_rows
  · rw [if_pos hx] at h
    unfold rowReduceInner at h
    by_cases hgt : cfg.max_output_rows < d.nrows
    · rw [if_pos hgt] at h
      by_cases h0 : (sampleRows d cfg.max_output_rows).nrows = 0
      · rw [if_pos h0] at h
        exact absurd h (by simp)
      · rw [if_neg h0] at h
        simp only [Option.some.injEq] at h
        subst h
        refine Or.inr ⟨by simpa using hx, hgt, rfl, ?_, h0⟩
        simp [sampleRows, Table.nrows, List.length_take]
        exact Nat.le_of_lt hgt
    · rw [if_neg hgt] at h
      simp only [Option.some.injEq] at h
      exact Or.inl ⟨h.symm, Or.inr hgt⟩
  · rw [if_neg hx] at h
    simp only [Option.some.injEq] at h
    exact Or.inl ⟨h.symm, Or.inl (by simpa using hx)⟩

/-- C8 amended: the pipeline is idempotent on its own output provided column
validation is disabled and, when row downsampling is enabled, any configured
min-row threshold is at most the output row cap: re-running the pipeline
with the same configuration on a table it produced yields that same table,
with no rejection and no further rows or columns removed. -/
theorem pipeline_idempotent (o : Oracles) (cfg : PreprocessConfig) (df0 t : Table)
    (hcv : cfg.drop_invalid_cols = false)
    (hmm : cfg.drop_extra_rows = false ∨ cfg.min_rows.getD 0 ≤ cfg.max_output_rows)
    (hrun : processTable o cfg df0 = some t) :
    processTable o cfg t = some t := by
  unfold processTable at hrun
  cases hpre : preMinRows o cfg df0 with
  | none => rw [hpre] at hrun; exact absurd hrun (by simp)
  | some dD =>
  rw [hpre] at hrun
  have hrun2 : (if minRowsReject cfg dD = true then none
      else rowReducePhase cfg dD) = some t := hrun
  by_cases hrej : minRowsReject cfg dD = true
  · rw [if_pos hrej] at hrun2
    exact absurd hrun2 (by simp)
  · rw [Bool.not_eq_true] at hrej
    rw [if_neg (by simp [hrej])] at hrun2
    obtain ⟨dR, hrow, hdD⟩ := preMinRows_some_inv o cfg df0 dD hpre
    have hinv := rowPhase_some_inv (rowStageSpecs o cfg) (colPhase cfg df0) dR hrow
    have hdDhdr : dD.header = dR.header := by rw [hdD]; exact dedupPhase_header cfg dR
    have hdDsub : List.Sublist dD.rows dR.rows := by rw [hdD]; exact dedupPhase_sublist cfg dR
    have hth : t.header = dD.header ∧ List.Sublist t.rows dD.rows ∧
        rowReducePhase cfg t = some t ∧ minRowsReject cfg t = false := by
      rcases rowReducePhase_cases cfg dD t hrun2 with ⟨heq, hcond⟩ | ⟨hx, hgt, hts, htn, _⟩
      · subst heq
        refine ⟨rfl, List.Sublist.refl _, ?_, hrej⟩
        unfold rowReducePhase
        by_cases hx' : cfg.drop_extra_rows
        · rw [if_pos hx']
          unfold rowReduceInner
          rcases hcond with hf | hnlt
          · rw [hf] at hx'
            exact absurd hx' (by simp)
          · rw [if_neg hnlt]
        · rw [if_neg hx']
      · have hthdr : t.header = dD.header := by rw [hts]; rfl
        have htsub : List.Sublist t.rows dD.rows := by
          rw [hts]
          exact List.take_sublist _ _
        refine ⟨hthdr, htsub, ?_, ?_⟩
        · unfold rowReducePhase
          rw [if_pos hx]
          unfold rowReduceInner
          rw [if_neg (by rw [htn]; exact Nat.lt_irrefl _)]
        · unfold minRowsReject
          cases hm : cfg.min_rows with
          | none => rfl
          | some m =>
              have hle : m ≤ cfg.max_output_rows := by
                rcases hmm with hf | hle
                · rw [hf] at hx
                  exact absurd hx (by simp)
                · rw [hm] at hle
                  simpa using hle
              simp only [decide_eq_false_iff_not, Nat.not_lt]
              rw [htn]
              exact hle
    obtain ⟨hthdr, htsub, htreduce, htmin⟩ := hth
    have hthdr0 : t.header = (colPhase cfg df0).header := by
      rw [hthdr, hdDhdr, hinv.1]
    have hcol_t : colPhase cfg t = t := by
      apply colPhase_id cfg t hcv
      intro hx2
      rw [hthdr0]
      exact colPhase_header_le cfg df0 hx2
    have hrow_t : rowPhase (rowStageSpecs o cfg) t = some t := by
      by_cases hany : ∃ s ∈ rowStageSpecs o cfg, s.enabled = true
      · have hdRne : dR.rows ≠ [] := rowPhase_nonempty _ _ _ hrow hany
        have hdDne : dD.rows ≠ [] := by
          rw [hdD]
          exact dedupPhase_ne_nil cfg dR hdRne
        have htne : t.rows ≠ [] := by
          rcases rowReducePhase_cases cfg dD t hrun2 with ⟨heq, _⟩ | ⟨_, _, _, _, htn0⟩
          · rw [heq]; exact hdDne
          · intro hnil
            exact htn0 (by simp [Table.nrows, hnil])
        exact rowPhase_keep_all (rowStageSpecs o cfg) (colPhase cfg df0) dR t hrow
          hthdr0 (htsub.trans hdDsub) htne
      · push_neg at hany
        refine rowPhase_all_disabled (rowStageSpecs o cfg) t ?_
        intro s hs
        cases hse : s.enabled
        · rfl
        · exact absurd hse (hany s hs)
    have hdedup_t : dedupPhase cfg t = t := by
      by_cases hd : cfg.drop_duplicate_rows
      · refine dedupPhase_id cfg t ?_
        have hnodupD : dD.rows.Nodup := by
          rw [hdD]
          exact dedupPhase_nodup cfg dR (by simpa using hd)
        exact htsub.nodup hnodupD
      · unfold dedupPhase
        rw [if_neg hd]
    have hpre_t : preMinRows o cfg t = some t := by
      unfold preMinRows
      rw [hcol_t, hrow_t]
      simp [hdedup_t]
    unfold processTable
    rw [hpre_t]
    show (if minRowsReject cfg t = true then none else rowReducePhase cfg t) = some t
    rw [if_neg (by simp [htmin])]
    exact htreduce

/-- Configuration of the idempotence counterexample: min-row threshold two,
row cap one, downsampling on. -/
def cfgIdem : PreprocessConfig :=
  { cfgOff with min_rows := some 2, drop_extra_rows := true, max_output_rows := 1 }

/-- C8 counterexample: the pipeline maps the two-row table `tW` to a one-row
table, but re-running it with the same configuration on that output rejects
it — one row is now below the min-row threshold — so the pipeline is not
idempotent on its own output. -/
theorem pipeline_not_idempotent_cex :
    processTable oW cfgIdem tW = some (sampleRows tW 1) ∧
    processTable oW cfgIdem (sampleRows tW 1) = none ∧
    processTable oW cfgIdem (sampleRows tW 1) ≠ some (sampleRows tW 1) := by
  refine ⟨by decide, by decide, by decide⟩

/-- Witness table for the amended idempotence claim: the one-row sample of
`tW`. -/
def tOne : Table :=
  { header := [{ name := "a", isString := true }], rows := [[Value.str "x"]] }

/-- Witness configuration for the amended idempotence claim: substring
filter, deduplication, min-row threshold one and row cap one enabled. -/
def cfgIdemOk : PreprocessConfig :=
  { cfgOff with
      filter_rows_containing_substrings := ["z"]
      drop_duplicate_rows := true
      min_rows := some 1
      drop_extra_rows := true
      max_output_rows := 1 }

/-- Witness for the amended C8: a first run maps `tW` to `tOne`, and the
re-run maps `tOne` to itself. -/
theorem pipeline_idempotent_witness :
    cfgIdemOk.drop_invalid_cols = false ∧
    cfgIdemOk.min_rows.getD 0 ≤ cfgIdemOk.max_output_rows ∧
    processTable oW cfgIdemOk tW = some tOne ∧
    processTable oW cfgIdemOk tOne = some tOne := by
  have h1 : processTable oW cfgIdemOk tW = some tOne := by decide
  exact ⟨rfl, by decide, h1,
    pipeline_idempotent oW cfgIdemOk tW tOne rfl (Or.inr (by decide)) h1⟩

end Tabliblib
